import Mathlib

/-!
Verification of the BudgetAssistant retrieval-augmented-generation core.

This file is a shallow embedding of the retrieval pipeline in
`src/BudgetAssistant/services/ragService.ts` together with the store
operations it uses from `src/BudgetAssistant/services/dbService.ts`.

Modelling conventions:
* JavaScript number arithmetic is idealised over the reals; the float
  formatting helper `Number.prototype.toFixed(3)` is treated as an opaque
  parameter of the engine record, since exact float rendering has no
  real-valued counterpart and no verified property depends on its output.
* The persistent SQLite store is modelled as in-memory lists kept in
  insertion (rowid) order; `ORDER BY rowid ASC/DESC` becomes the identity
  and `List.reverse` respectively, and `LIMIT n` becomes `List.take n`.
* The on-device generation and embedding engines are external collaborators
  (spec section 1); they are modelled as function fields of an `Engines`
  record, with fallible completion calls returning `Except String String`
  (a thrown exception becomes `Except.error`, a caught one an explicit
  `match`).
* `answerQuery` is sequential straight-line code, so its state effects are
  modelled by explicit state passing of the database value.  The streaming
  callback `onPartial` and the sampling options (`nPredict`, `top_p`, ...)
  are forwarded to the engine unchanged in the source and play no role in
  any verified property, so they are not represented.
-/

/-- Chat roles stored in the `chat_memory` table (`role TEXT`, written only
with the values `user` and `assistant` by `addChatMessage`). -/
inductive Role where
  | user
  | assistant
deriving DecidableEq, Repr

/-- A row of the `chat_memory` table as returned by `getChatHistory`
(`SELECT role, text FROM chat_memory`). -/
structure ChatMsg where
  role : Role
  text : String
deriving DecidableEq, Repr

/-- A row of the `documents` table: the SQLite rowid (insertion counter),
the `id TEXT PRIMARY KEY`, the chunk text and the parsed embedding vector. -/
structure Doc where
  rowid : Nat
  id : String
  text : String
  embedding : List ℝ

/-- The persistent store of `dbService.ts`: the `documents` table and the
`chat_memory` table, each kept as a list in insertion (rowid) order. -/
structure DB where
  documents : List Doc
  chatMemory : List ChatMsg

/-- dbService.getChatHistory: `SELECT role, text FROM chat_memory ORDER BY
rowid ASC LIMIT ?` — the first `limit` rows in insertion order. -/
def getChatHistory (limit : Nat) (db : DB) : List ChatMsg :=
  db.chatMemory.take limit

/-- dbService.addChatMessage: `INSERT INTO chat_memory (id, role, text)`,
appending one row at the end of the insertion order. -/
def addChatMessage (role : Role) (text : String) (db : DB) : DB :=
  { db with chatMemory := db.chatMemory ++ [⟨role, text⟩] }

/-- dbService.getAllDocs: `SELECT id, text, embedding FROM documents ORDER
BY rowid DESC` — all stored documents, most recently inserted first. -/
def getAllDocs (db : DB) : List Doc :=
  db.documents.reverse

/-- The inner-product accumulator of the `cosine` loop: the sums `dot`,
`normA`, `normB` are all instances of this pairwise product sum.  The
source loop runs over `a.length` indices; vectors compared by the
pipeline share the fixed embedding dimension (spec section 3), and this
recursion agrees with the loop on equal-length vectors. -/
def dotList : List ℝ → List ℝ → ℝ
  | x :: xs, y :: ys => x * y + dotList xs ys
  | _, _ => 0

/-- ragService.cosine: `dot / (Math.sqrt(normA) * Math.sqrt(normB))`, with
the division-by-zero guard returning 0 when the denominator is 0. -/
noncomputable def cosine (a b : List ℝ) : ℝ :=
  let dot := dotList a b
  let normA := dotList a a
  let normB := dotList b b
  let denominator := Real.sqrt normA * Real.sqrt normB
  if denominator = 0 then 0 else dot / denominator

/-- A scored retrieval candidate: the spread `{ ...doc, score }` built by
the `.map` step of `answerQuery`. -/
structure Scored where
  doc : Doc
  score : ℝ

/-- The `.map((doc) => ({ ...doc, score: cosine(queryEmbedding,
doc.embedding) }))` step of `answerQuery`. -/
noncomputable def scoreDocs (queryEmbedding : List ℝ) (docs : List Doc) : List Scored :=
  docs.map (fun d => ⟨d, cosine queryEmbedding d.embedding⟩)

/-- One insertion step of a stable descending sort by score: the inserted
element comes from an earlier input position than the list elements, and is
placed before the first element whose score does not exceed it, so equal
scores keep input order. -/
noncomputable def insertScoredDesc (x : Scored) : List Scored → List Scored
  | [] => [x]
  | y :: ys => if y.score ≤ x.score then x :: y :: ys else y :: insertScoredDesc x ys

/-- The `.sort((a, b) => b.score - a.score)` step of `answerQuery`.
ECMAScript `Array.prototype.sort` is specified to be stable; a stable
permutation sorted descending by score is unique, and this insertion sort
produces exactly that permutation. -/
noncomputable def sortScoredDesc : List Scored → List Scored
  | [] => []
  | x :: xs => insertScoredDesc x (sortScoredDesc xs)

/-- The similarity-search block of `answerQuery` (ragService lines
116-122): score every stored document, sort descending by score and keep
the first `topK` (`.slice(0, topK)`).  The source applies no
minimum-relevance filter. -/
noncomputable def searchTopK (queryEmbedding : List ℝ) (docs : List Doc) (topK : Nat) : List Scored :=
  (sortScoredDesc (scoreDocs queryEmbedding docs)).take topK

/-- Array.prototype.join with a separator string: empty array gives the
empty string, otherwise the elements interleaved with the separator. -/
def joinSep (sep : String) : List String → String
  | [] => ""
  | [s] => s
  | s :: t :: rest => s ++ sep ++ joinSep sep (t :: rest)

/-- The decimal digit characters used when a number is interpolated into a
template literal. -/
def digitChar (d : Nat) : Char := Char.ofNat (48 + d)

/-- Decimal rendering of a natural number, as produced by interpolating a
JavaScript integer into a template literal. -/
def natDigits (n : Nat) : List Char :=
  if _h : n < 10 then [digitChar n]
  else natDigits (n / 10) ++ [digitChar (n % 10)]
decreasing_by exact Nat.div_lt_self (by omega) (by omega)

/-- Number of positions of `l` at which `pat` occurs as a contiguous
substring. -/
def countOccur (pat l : List Char) : Nat :=
  (List.range l.length).countP (fun i => pat.isPrefixOf (l.drop i))

/-- `pat` occurs somewhere in `l` as a contiguous substring. -/
def occursIn (pat l : List Char) : Prop :=
  ∃ u v, l = u ++ pat ++ v

/-- The external capabilities consumed by `answerQuery` (spec section 6):
the embedding engine (`embedText` from embeddingService), the rewriter and
chat llama contexts (`getRewriterContext().completion` and
`getChatContext().completion` from llamaService, each taking the prompt and
returning the completion text or throwing), and the float formatter
`Number.prototype.toFixed(3)` used when interpolating a score into the
context block.  `toFixed3` is opaque because exact float rendering has no
real-valued counterpart; no verified property depends on its output. -/
structure Engines where
  embedText : String → List ℝ
  rewriterCompletion : String → Except String String
  chatCompletion : String → Except String String
  toFixed3 : ℝ → String

/-- The alternatives of the vague-word pattern
`/\b(that|this|it|those|these|him|her|them|that one|those ones)\b/i`. -/
def vagueWords : List String :=
  ["that", "this", "it", "those", "these", "him", "her", "them", "that one", "those ones"]

/-- Membership in the regex word class `\w` (ASCII letters, digits,
underscore), which determines the word boundaries asserted by `\b`. -/
def isWordChar (c : Char) : Bool :=
  c.isAlpha || c.isDigit || c == '_'

/-- One candidate match position of a whole-word pattern: the pattern
starts at index `i` of `l` and both ends sit at a `\b` word boundary. -/
def wordMatchAt (w l : List Char) (i : Nat) : Bool :=
  w.isPrefixOf (l.drop i)
    && (i == 0 || !isWordChar (l.getD (i - 1) ' '))
    && (i + w.length == l.length || !isWordChar (l.getD (i + w.length) ' '))

/-- `vagueWords.test(query)`: some alternative occurs in the query as a
whole word, case-insensitively (both sides lowered, matching the `i`
flag over ASCII). -/
def testVague (query : String) : Bool :=
  let l := query.data.map Char.toLower
  vagueWords.any (fun w => (List.range l.length).any (fun i => wordMatchAt w.data l i))

/-- ragService line 52: `vagueWords.test(query) || query.length < 25`. -/
def isVague (query : String) : Bool :=
  testVague query || query.length < 25

/-- The role string stored in the database and interpolated by the
rewriter history (`${m.role}` is the raw stored role). -/
def roleStr (r : Role) : String :=
  match r with
  | Role.user => "user"
  | Role.assistant => "assistant"

/-- ragService lines 57-59: `history.map((m) => `${m.role}: ${m.text}`)
.join('\n')`. -/
def historyForRewrite (history : List ChatMsg) : String :=
  joinSep "\n" (history.map (fun m => roleStr m.role ++ ": " ++ m.text))

/-- The rewriting instruction prompt of ragService lines 62-75. -/
def rewritePrompt (history : List ChatMsg) (query : String) : String :=
  "<bos><start_of_turn>user\nYou are a query rewriter. Given a chat history and a new user question, rewrite the user question to be a standalone, self-contained question that incorporates all necessary context from the history.\n\nRules:\n- If the user question is already self-contained, return it as-is.\n- Otherwise, rephrase it, adding context (like dates, topics, names) from the history.\n- **Respond with ONLY the rewritten query and nothing else.**\n\nChat History:\n"
    ++ historyForRewrite history
    ++ "\n\nUser Question: " ++ query
    ++ "\n<end_of_turn><start_of_turn>model\nRewritten Question: "

/-- JavaScript `String.prototype.trim`: drop leading and trailing
whitespace characters. -/
def jsTrim (s : String) : String :=
  ⟨((s.data.dropWhile Char.isWhitespace).reverse.dropWhile Char.isWhitespace).reverse⟩

/-- `replace(/["']/g, '')`: delete every double or single quote character
(39 is the single-quote code point). -/
def stripQuotes (s : String) : String :=
  ⟨s.data.filter (fun c => !(c == '"' || c == Char.ofNat 39))⟩

/-- The guard of the rewriting block, ragService line 55:
`history.length > 0 && isVague`. -/
def rewriteAttempted (history : List ChatMsg) (query : String) : Bool :=
  decide (0 < history.length) && isVague query

/-- The query-rewriting block of ragService lines 50-103: when history is
non-empty and the query is vague, ask the rewriter engine for a standalone
question; accept the trimmed, quote-stripped output only when its length
exceeds 10, and fall back to the original query both on rejection and on a
caught engine error. -/
def computeRetrievalQuery (eng : Engines) (history : List ChatMsg) (query : String) : String :=
  if rewriteAttempted history query then
    match eng.rewriterCompletion (rewritePrompt history query) with
    | Except.ok t =>
        let rewritten := stripQuotes (jsTrim t)
        if rewritten.length > 10 then rewritten else query
    | Except.error _ => query
  else query

/-- The system instruction template literal of ragService lines 134-141
(starts and ends with a newline). -/
def systemInstruction : String :=
  "\nYou are CornBot, a financial analyst. Provide practical, data-driven insights.\nRules: Be concise, analytical, and round floats to 2 decimals. Answer in 250 words or less.\nFormat:\n- **Summary**: [brief summary]\n- **Details**: [numbers, details]\n- **Recommendation**: [advice]\n"

/-- The no-relevant-documents placeholder substituted for an empty context
block (ragService line 153). -/
def placeholderText : String :=
  "No relevant financial documents found in the database. Rely only on general financial knowledge."

/-- The part of the system instruction after its unique capital Y (the Y
of CornBot greeting line); used to locate instruction occurrences. -/
def siPostY : String :=
  "ou are CornBot, a financial analyst. Provide practical, data-driven insights.\nRules: Be concise, analytical, and round floats to 2 decimals. Answer in 250 words or less.\nFormat:\n- **Summary**: [brief summary]\n- **Details**: [numbers, details]\n- **Recommendation**: [advice]\n"

/-- The system instruction up to its first letter w (the w of Answer). -/
def siW1 : String :=
  "\nYou are CornBot, a financial analyst. Provide practical, data-driven insights.\nRules: Be concise, analytical, and round floats to 2 decimals. Ans"

/-- The system instruction between its two letters w. -/
def siW2 : String := "er in 250 "

/-- The system instruction after its second letter w (the w of words). -/
def siW3 : String :=
  "ords or less.\nFormat:\n- **Summary**: [brief summary]\n- **Details**: [numbers, details]\n- **Recommendation**: [advice]\n"

/-- The part of the placeholder before its unique letter w (the w inside
the final word). -/
def phPreW : String :=
  "No relevant financial documents found in the database. Rely only on general financial kno"

/-- The part of the placeholder after its unique letter w. -/
def phPostW : String := "ledge."

/-- ragService line 145: `m.role === 'user' ? 'user' : 'model'`. -/
def roleToken (r : Role) : String :=
  match r with
  | Role.user => "user"
  | Role.assistant => "model"

/-- ragService lines 144-147: each history turn rendered between
role-delimiter tags, joined with the empty separator. -/
def formattedHistory (history : List ChatMsg) : String :=
  joinSep "" (history.map (fun m => "<start_of_turn>" ++ roleToken m.role ++ "\n" ++ m.text ++ "<end_of_turn>"))

/-- One rendered source chunk of ragService line 126, with `i` already the
1-based rank (`${i + 1}` over the 0-based map index): the score rendered by
the float formatter `fmt` (the engine field `toFixed3`) and the text
truncated by `.slice(0, 1000)`. -/
def chunkLine (fmt : ℝ → String) (i : Nat) (s : Scored) : String :=
  "[Source Chunk " ++ ⟨natDigits i⟩ ++ " (Score: " ++ fmt s.score ++ "):\n"
    ++ ⟨s.doc.text.data.take 1000⟩ ++ "]"

/-- The ranked chunk lines, numbering the candidates from 1 in list
order. -/
def chunkLines (fmt : ℝ → String) (i : Nat) : List Scored → List String
  | [] => []
  | s :: rest => chunkLine fmt i s :: chunkLines fmt (i + 1) rest

/-- ragService lines 125-127: the ranked candidates rendered as labeled
chunks and joined with `'\n---\n'`. -/
def contextText (fmt : ℝ → String) (scored : List Scored) : String :=
  joinSep "\n---\n" (chunkLines fmt 1 scored)

/-- The augmented query of ragService lines 150-156:
`${contextText || placeholder}` substitutes the placeholder exactly when
the rendered context is the empty string (the only falsy string). -/
def augmentedQuery (ctxText query : String) : String :=
  "\nFINANCIAL CONTEXT:\n---\n"
    ++ (if ctxText = "" then placeholderText else ctxText)
    ++ "\n---\nUser question: " ++ query ++ "\n"

/-- The prompt assembly of ragService lines 158-165: the system
instruction is prepended to the user content only when `history.length ===
0`, and the final prompt wraps history and user content in role-delimiter
tags.  The user-turn slot receives the original `query`, not the
retrieval query. -/
def buildPrompt (query : String) (history : List ChatMsg) (ctxText : String) : String :=
  let userContent :=
    if history.length = 0 then systemInstruction ++ "\n\n" ++ augmentedQuery ctxText query
    else augmentedQuery ctxText query
  "<bos>" ++ formattedHistory history ++ "<start_of_turn>user\n" ++ userContent
    ++ "<end_of_turn><start_of_turn>model\n"

/-- The full prompt computed by one `answerQuery` call for a given store
state: history is `getChatHistory(2)`, the retrieval query feeds the
embedding engine, and the original query feeds the prompt template. -/
noncomputable def answerQueryPrompt (eng : Engines) (query : String) (topK : Nat) (db : DB) : String :=
  let history := getChatHistory 2 db
  let retrievalQuery := computeRetrievalQuery eng history query
  let queryEmbedding := eng.embedText retrievalQuery
  let scored := searchTopK queryEmbedding (getAllDocs db) topK
  buildPrompt query history (contextText eng.toFixed3 scored)

/-- `String.prototype.indexOf` over character lists: the first position at
which `pat` occurs, if any. -/
def indexOfSub (l pat : List Char) : Option Nat :=
  (List.range l.length).find? (fun i => pat.isPrefixOf (l.drop i))

/-- ragService lines 211-214: truncate the reply at the first leaked
`<start_of_turn>user` tag, if present. -/
def cutAtUserTurn (l : List Char) : List Char :=
  match indexOfSub l "<start_of_turn>user".data with
  | some i => l.take i
  | none => l

/-- ragService line 215: `replace(/<end_of_turn>|<end_of_text>|\n\n/g,
'')` — scan left to right, deleting each alternative match and resuming
after it. -/
def stripTokens : List Char → List Char
  | [] => []
  | c :: cs =>
    if "<end_of_turn>".data.isPrefixOf (c :: cs) then stripTokens (cs.drop 12)
    else if "<end_of_text>".data.isPrefixOf (c :: cs) then stripTokens (cs.drop 12)
    else if "\n\n".data.isPrefixOf (c :: cs) then stripTokens (cs.drop 1)
    else c :: stripTokens cs
termination_by l => l.length
decreasing_by
  all_goals simp [List.length_drop]
  all_goals omega

/-- The reply cleanup of ragService lines 208-215: trim the raw completion
text, truncate at a leaked user tag, delete leaked stop tokens and double
newlines, and trim again. -/
def cleanReply (t : String) : String :=
  jsTrim ⟨stripTokens (cutAtUserTurn (jsTrim t).data)⟩

/-- The fixed user-safe string returned when the main completion throws
(ragService line 202). -/
def completionErrorText : String :=
  "Error: Could not get a response from the model."

/-- ragService.answerQuery as a state transformer: returns the reply text
and the updated store.  On a caught completion error the fixed error
string is returned and the store is untouched; on success the cleaned
reply is returned and the original query plus the cleaned reply are
appended to chat memory, in that order. -/
noncomputable def answerQuery (eng : Engines) (query : String) (topK : Nat) (db : DB) : String × DB :=
  match eng.chatCompletion (answerQueryPrompt eng query topK db) with
  | Except.error _ => (completionErrorText, db)
  | Except.ok t =>
      let reply := cleanReply t
      (reply, addChatMessage Role.assistant reply (addChatMessage Role.user query db))

/-- An engine record whose two completion calls both throw: used to
exercise the failure paths of `answerQuery`. -/
def failingEngines : Engines :=
  ⟨fun _ => [], fun _ => Except.error "rewrite down", fun _ => Except.error "llm down",
    fun _ => "0.000"⟩

/-- An engine record whose rewriter returns a fixed standalone question and
whose main completion throws. -/
def okRewriteEngines : Engines :=
  ⟨fun _ => [], fun _ => Except.ok "How much did I spend on October groceries",
    fun _ => Except.error "llm down", fun _ => "0.000"⟩

/-- An engine record whose main completion succeeds with a fixed reply. -/
def okChatEngines : Engines :=
  ⟨fun _ => [], fun _ => Except.error "rewrite down", fun _ => Except.ok "A fine answer.",
    fun _ => "0.000"⟩

/-- The empty store. -/
def dbEmpty : DB := ⟨[], []⟩

/-- A store holding one earlier conversation turn and no documents. -/
def dbOneTurn : DB := ⟨[], [⟨Role.user, "earlier question"⟩]⟩

/-- A store holding one document and an empty chat memory. -/
def dbOneDoc : DB := ⟨[⟨1, "doc-1", "Account balance summary", [(1 : ℝ)]⟩], []⟩

lemma dotList_comm (a b : List ℝ) : dotList a b = dotList b a := by
  induction a generalizing b with
  | nil => cases b <;> simp [dotList]
  | cons x xs ih =>
      cases b with
      | nil => simp [dotList]
      | cons y ys => simp [dotList, ih, mul_comm]

lemma dotList_self_nonneg (a : List ℝ) : 0 ≤ dotList a a := by
  induction a with
  | nil => simp [dotList]
  | cons x xs ih => simpa [dotList] using add_nonneg (mul_self_nonneg x) ih

lemma dotList_self_pos {a : List ℝ} (h : ∃ x ∈ a, x ≠ 0) : 0 < dotList a a := by
  induction a with
  | nil => simp at h
  | cons x xs ih =>
      rcases h with ⟨y, hy, hyne⟩
      rcases List.mem_cons.mp hy with rfl | hy'
      · have : 0 < y * y := mul_self_pos.mpr hyne
        simpa [dotList] using add_pos_of_pos_of_nonneg this (dotList_self_nonneg xs)
      · have : 0 < dotList xs xs := ih ⟨y, hy', hyne⟩
        simpa [dotList] using add_pos_of_nonneg_of_pos (mul_self_nonneg x) this

lemma dotList_self_eq_zero {a : List ℝ} (h : ∀ x ∈ a, x = 0) : dotList a a = 0 := by
  induction a with
  | nil => simp [dotList]
  | cons x xs ih =>
      have hx : x = 0 := h x (by simp)
      have hxs : dotList xs xs = 0 := ih (fun y hy => h y (by simp [hy]))
      simp [dotList, hx, hxs]

/-- C9: for equal-length vectors, cosine is symmetric; the cosine of a
non-zero vector with itself is 1; the cosine is 0 whenever either argument
is the zero vector. -/
theorem cosine_identities :
    (∀ a b : List ℝ, a.length = b.length → cosine a b = cosine b a)
    ∧ (∀ a : List ℝ, (∃ x ∈ a, x ≠ 0) → cosine a a = 1)
    ∧ (∀ a b : List ℝ, a.length = b.length →
        ((∀ x ∈ a, x = 0) ∨ (∀ x ∈ b, x = 0)) → cosine a b = 0) := by
  refine ⟨?_, ?_, ?_⟩
  · intro a b _
    simp only [cosine]
    rw [dotList_comm a b, mul_comm (Real.sqrt (dotList a a)) (Real.sqrt (dotList b b))]
  · intro a h
    have hpos := dotList_self_pos h
    simp only [cosine]
    rw [Real.mul_self_sqrt hpos.le, if_neg (ne_of_gt hpos), div_self (ne_of_gt hpos)]
  · intro a b _ h
    rcases h with h | h
    · simp only [cosine]
      rw [dotList_self_eq_zero h, Real.sqrt_zero, zero_mul, if_pos rfl]
    · simp only [cosine]
      rw [dotList_self_eq_zero h, Real.sqrt_zero, mul_zero, if_pos rfl]

theorem cosine_identities_witness :
    cosine [(2 : ℝ)] [3] = cosine [3] [2]
    ∧ cosine [(2 : ℝ)] [2] = 1
    ∧ cosine [(0 : ℝ)] [5] = 0 :=
  ⟨cosine_identities.1 [2] [3] rfl,
   cosine_identities.2.1 [2] ⟨2, by simp, by norm_num⟩,
   cosine_identities.2.2 [0] [5] rfl (Or.inl (by simp))⟩

/-- C1: evaluation of the chat-memory read at the failing input.  With
three turns stored in insertion order and a limit of 2, `getChatHistory`
returns the two oldest turns, not the two most recent ones, because the
query orders by `rowid ASC` before applying `LIMIT`; a limit of 0 does
return the empty sequence. -/
theorem getChatHistory_returns_oldest :
    getChatHistory 2 ⟨[], [⟨Role.user, "q1"⟩, ⟨Role.assistant, "a1"⟩, ⟨Role.user, "q2"⟩]⟩
      = [⟨Role.user, "q1"⟩, ⟨Role.assistant, "a1"⟩]
    ∧ getChatHistory 0 ⟨[], [⟨Role.user, "q1"⟩]⟩ = [] :=
  ⟨rfl, rfl⟩

/-- C8: when the main completion call throws, `answerQuery` returns the
fixed user-safe error string instead of propagating the engine error. -/
theorem answerQuery_failure_returns_error_string (eng : Engines) (query : String)
    (topK : Nat) (db : DB) (e : String)
    (h : eng.chatCompletion (answerQueryPrompt eng query topK db) = Except.error e) :
    (answerQuery eng query topK db).1 = "Error: Could not get a response from the model." := by
  simp [answerQuery, h, completionErrorText]

theorem answerQuery_failure_returns_error_string_witness :
    (answerQuery failingEngines "hello" 2 dbEmpty).1
      = "Error: Could not get a response from the model." :=
  answerQuery_failure_returns_error_string failingEngines "hello" 2 dbEmpty "llm down" rfl

/-- C10: when the main completion call throws, `answerQuery` leaves the
chat memory unchanged: the early return precedes both `addChatMessage`
calls. -/
theorem answerQuery_failure_preserves_memory (eng : Engines) (query : String)
    (topK : Nat) (db : DB) (e : String)
    (h : eng.chatCompletion (answerQueryPrompt eng query topK db) = Except.error e) :
    (answerQuery eng query topK db).2.chatMemory = db.chatMemory := by
  simp [answerQuery, h]

theorem answerQuery_failure_preserves_memory_witness :
    (answerQuery failingEngines "hi" 2 dbOneTurn).2.chatMemory
      = [⟨Role.user, "earlier question"⟩] :=
  answerQuery_failure_preserves_memory failingEngines "hi" 2 dbOneTurn "llm down" rfl

/-- C3 (amended): on every call whose main completion succeeds, the
original user query and the cleaned reply are appended to chat memory as
two turns, user first, assistant second, exactly once. -/
theorem answerQuery_success_appends_two_turns (eng : Engines) (query : String)
    (topK : Nat) (db : DB) (t : String)
    (h : eng.chatCompletion (answerQueryPrompt eng query topK db) = Except.ok t) :
    (answerQuery eng query topK db).2.chatMemory
      = db.chatMemory ++ [⟨Role.user, query⟩, ⟨Role.assistant, cleanReply t⟩]
    ∧ (answerQuery eng query topK db).1 = cleanReply t := by
  constructor
  · simp [answerQuery, h, addChatMessage]
  · simp [answerQuery, h]

theorem answerQuery_success_appends_two_turns_witness :
    (answerQuery okChatEngines "What is my balance" 2 dbEmpty).2.chatMemory
      = [⟨Role.user, "What is my balance"⟩, ⟨Role.assistant, cleanReply "A fine answer."⟩] := by
  have h := answerQuery_success_appends_two_turns okChatEngines "What is my balance" 2 dbEmpty
    "A fine answer." rfl
  simpa [dbEmpty] using h.1

/-- C3 (counterexample): a call whose main completion fails persists
nothing, so the two turns are not appended on every call. -/
theorem answerQuery_call_without_turns :
    ¬ ∃ r, (answerQuery failingEngines "hello there" 2 dbEmpty).2.chatMemory
        = [⟨Role.user, "hello there"⟩, ⟨Role.assistant, r⟩] := by
  rintro ⟨r, h⟩
  have hmem : (answerQuery failingEngines "hello there" 2 dbEmpty).2.chatMemory = [] := rfl
  rw [hmem] at h
  exact absurd h (by simp)


/-- C6: the query-rewriting policy.  With empty history the rewrite block
is never entered and the retrieval query is the original query; when the
block runs and the rewriter returns, its output is used only if the
trimmed, quote-stripped text is longer than 10 characters; and a rewriter
failure is absorbed — the retrieval query falls back to the original and
the whole `answerQuery` call proceeds exactly as with a degenerate
accepted-nothing rewrite. -/
theorem retrieval_query_policy :
    (∀ eng query, rewriteAttempted [] query = false
      ∧ computeRetrievalQuery eng [] query = query)
    ∧ (∀ eng history query t, rewriteAttempted history query = true →
        eng.rewriterCompletion (rewritePrompt history query) = Except.ok t →
        computeRetrievalQuery eng history query
          = (if (stripQuotes (jsTrim t)).length > 10 then stripQuotes (jsTrim t) else query))
    ∧ (∀ eng query e, eng.rewriterCompletion = (fun _ => Except.error e) →
        (∀ history, computeRetrievalQuery eng history query = query)
        ∧ ∀ topK db, answerQuery eng query topK db
            = answerQuery { eng with rewriterCompletion := fun _ => Except.ok "" } query topK db) := by
  refine ⟨?_, ?_, ?_⟩
  · intro eng query
    constructor
    · simp [rewriteAttempted]
    · simp [computeRetrievalQuery, rewriteAttempted]
  · intro eng history query t h1 h2
    simp [computeRetrievalQuery, h1, h2]
  · intro eng query e h
    have hfall : ∀ history, computeRetrievalQuery eng history query = query := by
      intro history
      unfold computeRetrievalQuery
      rw [h]
      split <;> simp
    refine ⟨hfall, ?_⟩
    intro topK db
    have hfall2 : ∀ history,
        computeRetrievalQuery { eng with rewriterCompletion := fun _ => Except.ok "" }
          history query = query := by
      intro history
      unfold computeRetrievalQuery
      split <;> simp [stripQuotes, jsTrim]
    simp only [answerQuery, answerQueryPrompt, hfall, hfall2]

theorem retrieval_query_policy_witness :
    (computeRetrievalQuery okRewriteEngines [] "it" = "it")
    ∧ (rewriteAttempted [⟨Role.user, "October groceries"⟩] "it" = true)
    ∧ (computeRetrievalQuery okRewriteEngines [⟨Role.user, "October groceries"⟩] "it"
        = (if (stripQuotes (jsTrim "How much did I spend on October groceries")).length > 10
            then stripQuotes (jsTrim "How much did I spend on October groceries") else "it"))
    ∧ (computeRetrievalQuery failingEngines [⟨Role.user, "October groceries"⟩] "it" = "it") :=
  ⟨(retrieval_query_policy.1 okRewriteEngines "it").2,
   by decide,
   retrieval_query_policy.2.1 okRewriteEngines [⟨Role.user, "October groceries"⟩] "it"
     "How much did I spend on October groceries" (by decide) rfl,
   (retrieval_query_policy.2.2 failingEngines "it" "rewrite down" rfl).1
     [⟨Role.user, "October groceries"⟩]⟩

lemma mem_insertScoredDesc {z x : Scored} {l : List Scored} :
    z ∈ insertScoredDesc x l ↔ z = x ∨ z ∈ l := by
  induction l with
  | nil => simp [insertScoredDesc]
  | cons y ys ih =>
      simp only [insertScoredDesc]
      split
      · simp [List.mem_cons]
      · simp only [List.mem_cons, ih]
        tauto

lemma mem_sortScoredDesc {z : Scored} {l : List Scored} :
    z ∈ sortScoredDesc l ↔ z ∈ l := by
  induction l with
  | nil => simp [sortScoredDesc]
  | cons x xs ih => simp [sortScoredDesc, mem_insertScoredDesc, ih]

lemma pairwise_insertScoredDesc {S : Scored → Scored → Prop} {x : Scored} {l : List Scored}
    (hsorted : l.Pairwise (fun a b => b.score ≤ a.score))
    (hS : l.Pairwise S)
    (h1 : ∀ y ∈ l, y.score ≤ x.score → S x y)
    (h2 : ∀ y ∈ l, x.score < y.score → S y x) :
    (insertScoredDesc x l).Pairwise S := by
  induction l with
  | nil => simp [insertScoredDesc]
  | cons y ys ih =>
      obtain ⟨hsy, hsys⟩ := List.pairwise_cons.mp hsorted
      obtain ⟨hSy, hSys⟩ := List.pairwise_cons.mp hS
      simp only [insertScoredDesc]
      split
      · rename_i hyx
        refine List.Pairwise.cons ?_ hS
        intro z hz
        rcases List.mem_cons.mp hz with rfl | hz'
        · exact h1 z (by simp) hyx
        · exact h1 z (by simp [hz']) (le_trans (hsy z hz') hyx)
      · rename_i hyx
        refine List.Pairwise.cons ?_
          (ih hsys hSys (fun z hz hle => h1 z (by simp [hz]) hle)
            (fun z hz hlt => h2 z (by simp [hz]) hlt))
        intro z hz
        rcases mem_insertScoredDesc.mp hz with rfl | hz'
        · exact h2 y (by simp) (lt_of_not_le hyx)
        · exact hSy z hz'

lemma sorted_sortScoredDesc (l : List Scored) :
    (sortScoredDesc l).Pairwise (fun a b => b.score ≤ a.score) := by
  induction l with
  | nil => simp [sortScoredDesc]
  | cons x xs ih =>
      simp only [sortScoredDesc]
      exact pairwise_insertScoredDesc ih ih (fun y _ h => h) (fun y _ h => le_of_lt h)

lemma stable_sortScoredDesc {l : List Scored}
    (h : l.Pairwise (fun a b => b.doc.rowid < a.doc.rowid)) :
    (sortScoredDesc l).Pairwise (fun a b => a.score = b.score → b.doc.rowid < a.doc.rowid) := by
  induction l with
  | nil => simp [sortScoredDesc]
  | cons x xs ih =>
      obtain ⟨hx, hxs⟩ := List.pairwise_cons.mp h
      simp only [sortScoredDesc]
      refine pairwise_insertScoredDesc (sorted_sortScoredDesc xs) (ih hxs) ?_ ?_
      · intro y hy _ _
        exact hx y (mem_sortScoredDesc.mp hy)
      · intro y hy hlt heq
        exact absurd heq (ne_of_gt hlt)

/-- C2 (amended): when stored rowids strictly increase along the insert
order, the similarity search returns at most `topK` candidates, in
descending score order, and candidates with equal scores appear most
recently inserted first.  No minimum-relevance filtering takes place. -/
theorem searchTopK_ranked (queryEmbedding : List ℝ) (db : DB) (topK : Nat)
    (hrow : db.documents.Pairwise (fun a b => a.rowid < b.rowid)) :
    (searchTopK queryEmbedding (getAllDocs db) topK).length ≤ topK
    ∧ (searchTopK queryEmbedding (getAllDocs db) topK).Pairwise
        (fun a b => b.score ≤ a.score ∧ (a.score = b.score → b.doc.rowid < a.doc.rowid)) := by
  constructor
  · simp [searchTopK, List.length_take]
  · have hrev : (getAllDocs db).Pairwise (fun a b : Doc => b.rowid < a.rowid) := by
      rw [getAllDocs, List.pairwise_reverse]
      exact hrow
    have hscored : (scoreDocs queryEmbedding (getAllDocs db)).Pairwise
        (fun a b => b.doc.rowid < a.doc.rowid) := by
      unfold scoreDocs
      rw [List.pairwise_map]
      exact hrev
    exact ((sorted_sortScoredDesc _).and (stable_sortScoredDesc hscored)).sublist
      (List.take_sublist _ _)

theorem searchTopK_ranked_witness :
    (searchTopK [(1 : ℝ)] (getAllDocs dbOneDoc) 2).length ≤ 2
    ∧ (searchTopK [(1 : ℝ)] (getAllDocs dbOneDoc) 2).Pairwise
        (fun a b => b.score ≤ a.score ∧ (a.score = b.score → b.doc.rowid < a.doc.rowid)) :=
  searchTopK_ranked [(1 : ℝ)] dbOneDoc 2 (by simp [dbOneDoc])

/-- C2 (counterexample): the similarity search of the source happily
returns a candidate with cosine score -1, far below the configured
relevance threshold of 0.45 (the value fixed by the spec scenarios), so
the thresholding clause of the claim fails on this code. -/
theorem searchTopK_returns_below_threshold :
    ((searchTopK [(1 : ℝ)] (getAllDocs ⟨[⟨1, "doc-1", "irrelevant", [(-1 : ℝ)]⟩], []⟩) 2).map
        Scored.score = [(-1 : ℝ)])
    ∧ ((-1 : ℝ) < 0.45) := by
  constructor
  · have hcos : cosine [(1 : ℝ)] [(-1 : ℝ)] = -1 := by
      simp only [cosine, dotList]
      norm_num [Real.sqrt_one]
    simp [searchTopK, getAllDocs, scoreDocs, sortScoredDesc, insertScoredDesc, hcos]
  · norm_num

lemma isPrefixOf_iff {p l : List Char} : p.isPrefixOf l = true ↔ ∃ v, l = p ++ v := by
  rw [List.isPrefixOf_iff_prefix]
  constructor
  · rintro ⟨v, hv⟩
    exact ⟨v, hv.symm⟩
  · rintro ⟨v, hv⟩
    exact ⟨v, hv.symm⟩

lemma matchAt_split {p l : List Char} {i : Nat} (hi : i < l.length)
    (h : p.isPrefixOf (l.drop i) = true) :
    ∃ u v, l = u ++ p ++ v ∧ u.length = i := by
  obtain ⟨v, hv⟩ := isPrefixOf_iff.mp h
  refine ⟨l.take i, v, ?_, ?_⟩
  · conv_lhs => rw [← List.take_append_drop i l]
    rw [hv, List.append_assoc]
  · rw [List.length_take]
    omega

lemma split_matchAt {p u v l : List Char} (h : l = u ++ p ++ v) :
    p.isPrefixOf (l.drop u.length) = true := by
  subst h
  rw [List.append_assoc, List.drop_left]
  exact isPrefixOf_iff.mpr ⟨v, rfl⟩

lemma unique_marker_eq {c : Char} {a₁ a₂ b₁ b₂ : List Char}
    (h : a₁ ++ c :: a₂ = b₁ ++ c :: b₂) (h₁ : c ∉ a₁) (h₂ : c ∉ b₁) :
    a₁ = b₁ ∧ a₂ = b₂ := by
  induction a₁ generalizing b₁ with
  | nil =>
      cases b₁ with
      | nil => simpa using h
      | cons b bs =>
          simp only [List.nil_append, List.cons_append, List.cons.injEq] at h
          exact absurd (by simp [h.1]) h₂
  | cons a as ih =>
      cases b₁ with
      | nil =>
          simp only [List.nil_append, List.cons_append, List.cons.injEq] at h
          exact absurd (by simp [h.1]) h₁
      | cons b bs =>
          simp only [List.cons_append, List.cons.injEq] at h
          obtain ⟨rfl, h'⟩ := h
          have h₁' : c ∉ as := fun hc => h₁ (by simp [hc])
          have h₂' : c ∉ bs := fun hc => h₂ (by simp [hc])
          obtain ⟨he, ht⟩ := ih h' h₁' h₂'
          exact ⟨by rw [he], ht⟩

lemma length_le_one_of_nodup_of_all_eq {α : Type} (a : α) {l : List α} (hnd : l.Nodup)
    (h : ∀ x ∈ l, x = a) : l.length ≤ 1 := by
  cases l with
  | nil => simp
  | cons x xs =>
      cases xs with
      | nil => simp
      | cons y ys =>
          have hx : x = a := h x (by simp)
          have hy : y = a := h y (by simp)
          have : x ∉ y :: ys := (List.nodup_cons.mp hnd).1
          exact absurd (by simp [hx, hy]) this

lemma countOccur_eq_zero_of_marker {c : Char} {pat l : List Char}
    (hc : c ∈ pat) (hl : c ∉ l) : countOccur pat l = 0 := by
  unfold countOccur
  rw [List.countP_eq_zero]
  intro i hi
  simp only [Bool.not_eq_true]
  rw [← Bool.not_eq_true]
  intro hmatch
  obtain ⟨u, v, huv, -⟩ := matchAt_split (List.mem_range.mp hi) hmatch
  exact hl (by rw [huv]; simp [hc])

lemma not_occursIn_of_marker {c : Char} {pat l : List Char}
    (hc : c ∈ pat) (hl : c ∉ l) : ¬ occursIn pat l := by
  rintro ⟨u, v, rfl⟩
  exact hl (by simp [hc])

lemma countOccur_eq_one_of_unique_marker (c : Char) (s t w x pat l : List Char)
    (hp : pat = s ++ c :: t) (hl : l = w ++ pat ++ x)
    (hcs : c ∉ s) (hct : c ∉ t) (hcw : c ∉ w) (hcx : c ∉ x) :
    countOccur pat l = 1 := by
  have hwx : l = (w ++ s) ++ c :: (t ++ x) := by
    rw [hl, hp]
    simp [List.append_assoc]
  have hcws : c ∉ w ++ s := by
    simp only [List.mem_append, not_or]
    exact ⟨hcw, hcs⟩
  have hcount : l.count c = 1 := by
    rw [hwx]
    simp [List.count_append, List.count_cons_self, List.count_eq_zero.mpr hcw,
      List.count_eq_zero.mpr hcs, List.count_eq_zero.mpr hct, List.count_eq_zero.mpr hcx]
  have huniq : ∀ i < l.length, pat.isPrefixOf (l.drop i) = true → i = w.length := by
    intro i hi hm
    obtain ⟨u, v, huv, hlen⟩ := matchAt_split hi hm
    have hsum : l.count c = u.count c + v.count c + 1 := by
      rw [huv, hp]
      simp [List.count_append, List.count_cons_self, List.count_eq_zero.mpr hcs,
        List.count_eq_zero.mpr hct]
      omega
    have hu0 : u.count c = 0 := by omega
    have hv0 : v.count c = 0 := by omega
    have hcu : c ∉ u := List.count_eq_zero.mp hu0
    have huv' : (u ++ s) ++ c :: (t ++ v) = (w ++ s) ++ c :: (t ++ x) := by
      rw [← hwx, huv, hp]
      simp [List.append_assoc]
    have hcus : c ∉ u ++ s := by
      simp only [List.mem_append, not_or]
      exact ⟨hcu, hcs⟩
    have heq := (unique_marker_eq huv' hcus hcws).1
    have hlen2 : u.length + s.length = w.length + s.length := by
      have := congrArg List.length heq
      simpa [List.length_append] using this
    omega
  have hwl : w.length < l.length := by
    rw [hl, hp]
    simp [List.length_append]
  have hmatch : pat.isPrefixOf (l.drop w.length) = true := split_matchAt hl
  unfold countOccur
  have hpos : 0 < (List.range l.length).countP (fun i => pat.isPrefixOf (l.drop i)) :=
    List.countP_pos_iff.mpr ⟨w.length, List.mem_range.mpr hwl, hmatch⟩
  have hle : (List.range l.length).countP (fun i => pat.isPrefixOf (l.drop i)) ≤ 1 := by
    rw [List.countP_eq_length_filter]
    refine length_le_one_of_nodup_of_all_eq w.length ((List.nodup_range _).filter _) ?_
    intro j hj
    have hj' := List.mem_filter.mp hj
    exact huniq j (List.mem_range.mp hj'.1) hj'.2
  omega

lemma occursIn_align_of_unique_marker (c : Char) (s t w x pat l : List Char)
    (hp : pat = s ++ c :: t) (hl : l = w ++ c :: x)
    (hcs : c ∉ s) (hct : c ∉ t) (hcw : c ∉ w) (hcx : c ∉ x)
    (hocc : occursIn pat l) : ∃ x2, x = t ++ x2 := by
  obtain ⟨a, b, hab⟩ := hocc
  have hcount : l.count c = 1 := by
    rw [hl]
    simp [List.count_append, List.count_cons_self, List.count_eq_zero.mpr hcw,
      List.count_eq_zero.mpr hcx]
  have hsum : l.count c = a.count c + b.count c + 1 := by
    rw [hab, hp]
    simp [List.count_append, List.count_cons_self, List.count_eq_zero.mpr hcs,
      List.count_eq_zero.mpr hct]
    omega
  have hca : c ∉ a := List.count_eq_zero.mp (by omega)
  have hmain : (a ++ s) ++ c :: (t ++ b) = w ++ c :: x := by
    rw [← hl, hab, hp]
    simp [List.append_assoc]
  have hcas : c ∉ a ++ s := by
    simp only [List.mem_append, not_or]
    exact ⟨hca, hcs⟩
  have := (unique_marker_eq hmain hcas hcw).2
  exact ⟨b, this.symm⟩

lemma marker_not_mem_joinSep {c : Char} {sep : String} {ls : List String}
    (hsep : c ∉ sep.data) (h : ∀ s ∈ ls, c ∉ s.data) : c ∉ (joinSep sep ls).data := by
  induction ls with
  | nil => simp [joinSep]
  | cons s rest ih =>
      cases rest with
      | nil => simpa [joinSep] using h s (by simp)
      | cons t r =>
          have hs : c ∉ s.data := h s (by simp)
          have hrest : c ∉ (joinSep sep (t :: r)).data :=
            ih (fun u hu => h u (by simp [List.mem_cons] at hu ⊢; tauto))
          simp only [joinSep, String.data_append, List.mem_append, not_or]
          exact ⟨⟨hs, hsep⟩, hrest⟩

lemma digit_mem_natDigits {c : Char} :
    ∀ n, c ∈ natDigits n → ∃ d, d < 10 ∧ c = digitChar d := by
  intro n
  induction n using Nat.strong_induction_on with
  | _ n ih =>
      unfold natDigits
      split
      · rename_i h
        intro hc
        simp at hc
        exact ⟨n, h, hc⟩
      · rename_i h
        intro hc
        rcases List.mem_append.mp hc with hc1 | hc2
        · exact ih (n / 10) (Nat.div_lt_self (by omega) (by omega)) hc1
        · simp at hc2
          exact ⟨n % 10, Nat.mod_lt _ (by omega), hc2⟩

lemma marker_not_mem_natDigits {c : Char} (h : ∀ d, d < 10 → digitChar d ≠ c) (n : Nat) :
    c ∉ natDigits n := by
  intro hc
  obtain ⟨d, hd, rfl⟩ := digit_mem_natDigits n hc
  exact h d hd rfl

lemma marker_not_mem_chunkLine {c : Char} {fmt : ℝ → String} {i : Nat} {s : Scored}
    (hdig : ∀ d, d < 10 → digitChar d ≠ c)
    (h1 : c ∉ "[Source Chunk ".data) (h2 : c ∉ " (Score: ".data)
    (h3 : c ∉ "):\n".data) (h4 : c ∉ "]".data)
    (hfmt : c ∉ (fmt s.score).data) (htext : c ∉ s.doc.text.data) :
    c ∉ (chunkLine fmt i s).data := by
  intro hc
  simp only [chunkLine, String.data_append, List.mem_append] at hc
  rcases hc with ((((((hc | hc) | hc) | hc) | hc) | hc) | hc)
  · exact h1 hc
  · exact marker_not_mem_natDigits hdig i hc
  · exact h2 hc
  · exact hfmt hc
  · exact h3 hc
  · exact htext (List.mem_of_mem_take hc)
  · exact h4 hc

lemma marker_not_mem_chunkLines {c : Char} {fmt : ℝ → String}
    (hdig : ∀ d, d < 10 → digitChar d ≠ c)
    (h1 : c ∉ "[Source Chunk ".data) (h2 : c ∉ " (Score: ".data)
    (h3 : c ∉ "):\n".data) (h4 : c ∉ "]".data) :
    ∀ (scored : List Scored) (i : Nat),
      (∀ s ∈ scored, c ∉ (fmt s.score).data ∧ c ∉ s.doc.text.data) →
      ∀ str ∈ chunkLines fmt i scored, c ∉ str.data := by
  intro scored
  induction scored with
  | nil =>
      intro i _ str hstr
      simp [chunkLines] at hstr
  | cons s rest ih =>
      intro i h str hstr
      rcases List.mem_cons.mp hstr with rfl | hstr2
      · have hs := h s (by simp)
        exact marker_not_mem_chunkLine hdig h1 h2 h3 h4 hs.1 hs.2
      · exact ih (i + 1) (fun u hu => h u (by simp [hu])) str hstr2

lemma marker_not_mem_contextText {c : Char} {fmt : ℝ → String} {scored : List Scored}
    (hdig : ∀ d, d < 10 → digitChar d ≠ c)
    (h1 : c ∉ "[Source Chunk ".data) (h2 : c ∉ " (Score: ".data)
    (h3 : c ∉ "):\n".data) (h4 : c ∉ "]".data)
    (hsep : c ∉ "\n---\n".data)
    (hs : ∀ s ∈ scored, c ∉ (fmt s.score).data ∧ c ∉ s.doc.text.data) :
    c ∉ (contextText fmt scored).data :=
  marker_not_mem_joinSep hsep (marker_not_mem_chunkLines hdig h1 h2 h3 h4 scored 1 hs)

lemma marker_not_mem_formattedHistory {c : Char} {history : List ChatMsg}
    (h1 : c ∉ "<start_of_turn>".data) (h2 : c ∉ "user".data) (h3 : c ∉ "model".data)
    (h4 : c ∉ "\n".data) (h5 : c ∉ "<end_of_turn>".data)
    (h : ∀ m ∈ history, c ∉ m.text.data) : c ∉ (formattedHistory history).data := by
  refine marker_not_mem_joinSep (by simp) ?_
  intro s hs
  obtain ⟨m, hm, rfl⟩ := List.mem_map.mp hs
  intro hc
  simp only [String.data_append, List.mem_append] at hc
  rcases hc with ((((hc | hc) | hc) | hc) | hc)
  · exact h1 hc
  · revert hc
    cases m.role
    · exact fun hc => h2 hc
    · exact fun hc => h3 hc
  · exact h4 hc
  · exact h m hm hc
  · exact h5 hc

lemma buildPrompt_data (query : String) (history : List ChatMsg) (ctxText : String) :
    (buildPrompt query history ctxText).data
      = "<bos>".data ++ (formattedHistory history).data ++ "<start_of_turn>user\n".data
        ++ (if history.length = 0 then systemInstruction.data ++ "\n\n".data else [])
        ++ "\nFINANCIAL CONTEXT:\n---\n".data
        ++ (if ctxText = "" then placeholderText else ctxText).data
        ++ "\n---\nUser question: ".data ++ query.data ++ "\n".data
        ++ "<end_of_turn><start_of_turn>model\n".data := by
  unfold buildPrompt augmentedQuery
  by_cases h0 : history.length = 0 <;>
    simp [h0, String.data_append, List.append_assoc]

lemma systemInstruction_split_Y :
    systemInstruction.data = "\n".data ++ 'Y' :: siPostY.data := by rfl

lemma systemInstruction_split_w :
    systemInstruction.data = siW1.data ++ 'w' :: (siW2.data ++ 'w' :: siW3.data) := by rfl

lemma placeholder_split_w :
    placeholderText.data = phPreW.data ++ 'w' :: phPostW.data := by rfl

lemma chunkLine_ne_empty (fmt : ℝ → String) (i : Nat) (s : Scored) :
    chunkLine fmt i s ≠ "" := by
  intro h
  have h2 : (chunkLine fmt i s).data.length = 0 := by rw [h]; rfl
  have h14 : "[Source Chunk ".data.length = 14 := rfl
  simp [chunkLine, String.data_append, List.length_append, h14] at h2

lemma contextText_ne_empty (fmt : ℝ → String) (s : Scored) (rest : List Scored) :
    contextText fmt (s :: rest) ≠ "" := by
  intro he
  have h0 : (contextText fmt (s :: rest)).data.length = 0 := by rw [he]; rfl
  have hpos : 0 < (chunkLine fmt 1 s).data.length := by
    by_contra hz
    push_neg at hz
    have hnil : (chunkLine fmt 1 s).data = [] := List.length_eq_zero.mp (by omega)
    exact chunkLine_ne_empty fmt 1 s (String.ext hnil)
  cases rest with
  | nil =>
      simp only [contextText, chunkLines, joinSep] at h0
      omega
  | cons t r =>
      simp only [contextText, chunkLines, joinSep, String.data_append,
        List.length_append] at h0
      omega

/-- C4: the assembled prompt contains the system instruction exactly once
when the conversation history is empty, and not at all when the history is
non-empty, provided no input smuggles the instruction marker into the
prompt (no history text, document text, rendered score or query contains
the instruction letter Y, which the instruction itself contains exactly
once and the fixed template never contains). -/
theorem systemInstruction_occurrence (fmt : ℝ → String) (query : String)
    (history : List ChatMsg) (scored : List Scored)
    (hq : 'Y' ∉ query.data)
    (hh : ∀ m ∈ history, 'Y' ∉ m.text.data)
    (hs : ∀ s ∈ scored, 'Y' ∉ (fmt s.score).data ∧ 'Y' ∉ s.doc.text.data) :
    countOccur systemInstruction.data
        (buildPrompt query history (contextText fmt scored)).data
      = if history.length = 0 then 1 else 0 := by
  have hctx : 'Y' ∉ (contextText fmt scored).data :=
    marker_not_mem_contextText (by decide) (by decide) (by decide) (by decide) (by decide)
      (by decide) hs
  have hctxIf : 'Y' ∉ (if contextText fmt scored = "" then placeholderText
      else contextText fmt scored).data := by
    split
    · decide
    · exact hctx
  have hfh : 'Y' ∉ (formattedHistory history).data :=
    marker_not_mem_formattedHistory (by decide) (by decide) (by decide) (by decide)
      (by decide) hh
  rw [buildPrompt_data]
  by_cases h0 : history.length = 0
  · rw [if_pos h0, if_pos h0]
    refine countOccur_eq_one_of_unique_marker 'Y' "\n".data siPostY.data
      ("<bos>".data ++ (formattedHistory history).data ++ "<start_of_turn>user\n".data)
      ("\n\n".data ++ "\nFINANCIAL CONTEXT:\n---\n".data
        ++ (if contextText fmt scored = "" then placeholderText
            else contextText fmt scored).data
        ++ "\n---\nUser question: ".data ++ query.data ++ "\n".data
        ++ "<end_of_turn><start_of_turn>model\n".data)
      systemInstruction.data _
      systemInstruction_split_Y (by simp [List.append_assoc]) (by decide) (by decide) ?_ ?_
    · intro hc
      simp only [List.mem_append] at hc
      rcases hc with (hc | hc) | hc
      · exact absurd hc (by decide)
      · exact hfh hc
      · exact absurd hc (by decide)
    · intro hc
      simp only [List.mem_append] at hc
      rcases hc with ((((((hc | hc) | hc) | hc) | hc) | hc) | hc)
      · exact absurd hc (by decide)
      · exact absurd hc (by decide)
      · exact hctxIf hc
      · exact absurd hc (by decide)
      · exact hq hc
      · exact absurd hc (by decide)
      · exact absurd hc (by decide)
  · rw [if_neg h0, if_neg h0]
    refine countOccur_eq_zero_of_marker (show 'Y' ∈ systemInstruction.data by decide) ?_
    intro hc
    simp only [List.append_nil, List.mem_append] at hc
    rcases hc with ((((((((hc | hc) | hc) | hc) | hc) | hc) | hc) | hc) | hc)
    · exact absurd hc (by decide)
    · exact hfh hc
    · exact absurd hc (by decide)
    · exact absurd hc (by decide)
    · exact hctxIf hc
    · exact absurd hc (by decide)
    · exact hq hc
    · exact absurd hc (by decide)
    · exact absurd hc (by decide)

theorem systemInstruction_occurrence_witness :
    countOccur systemInstruction.data
        (buildPrompt "What is my balance" [] (contextText (fun _ => "0.000") [])).data = 1 := by
  have h := systemInstruction_occurrence (fun _ => "0.000") "What is my balance" [] []
    (by decide) (by simp) (by simp)
  simpa using h

/-- C5: the current user turn rendered into the assembled prompt is the
original query text verbatim: for every engine (including any that
rewrites and accepts a retrieval query), the prompt ends with the literal
user-question line built from the original `query`, while the rewrite can
reach the prompt only through the retrieved context. -/
theorem prompt_user_turn_is_original_query (eng : Engines) (query : String)
    (topK : Nat) (db : DB) :
    ∃ pre : List Char,
      (answerQueryPrompt eng query topK db).data
        = pre ++ ("User question: " ++ query ++ "\n<end_of_turn><start_of_turn>model\n").data := by
  simp only [answerQueryPrompt]
  rw [buildPrompt_data]
  refine ⟨"<bos>".data ++ (formattedHistory (getChatHistory 2 db)).data
    ++ "<start_of_turn>user\n".data
    ++ (if (getChatHistory 2 db).length = 0 then systemInstruction.data ++ "\n\n".data else [])
    ++ "\nFINANCIAL CONTEXT:\n---\n".data
    ++ (if contextText eng.toFixed3 (searchTopK
          (eng.embedText (computeRetrievalQuery eng (getChatHistory 2 db) query))
          (getAllDocs db) topK) = "" then placeholderText
        else contextText eng.toFixed3 (searchTopK
          (eng.embedText (computeRetrievalQuery eng (getChatHistory 2 db) query))
          (getAllDocs db) topK)).data
    ++ "\n---\n".data, ?_⟩
  have hsplit : "\n---\nUser question: ".data = "\n---\n".data ++ "User question: ".data := rfl
  rw [hsplit]
  simp [String.data_append, List.append_assoc]

lemma two_marker_split (c : Char) (A B C : List Char) :
    ∀ u v : List Char, A ++ c :: (B ++ c :: C) = u ++ c :: v →
      c ∉ A → c ∉ B → c ∉ C →
      (u = A ∧ v = B ++ c :: C) ∨ (u = A ++ c :: B ∧ v = C) := by
  induction A with
  | nil =>
      intro u v h hA hB hC
      cases u with
      | nil =>
          simp only [List.nil_append, List.cons.injEq, true_and] at h
          exact Or.inl ⟨rfl, h.symm⟩
      | cons b u2 =>
          simp only [List.nil_append, List.cons_append, List.cons.injEq] at h
          obtain ⟨rfl, h2⟩ := h
          have hcount : (B ++ c :: C).count c = 1 := by
            simp [List.count_append, List.count_cons_self, List.count_eq_zero.mpr hB,
              List.count_eq_zero.mpr hC]
          have hsum : (B ++ c :: C).count c = u2.count c + v.count c + 1 := by
            rw [h2]
            simp [List.count_append, List.count_cons_self]
            omega
          have hcu2 : c ∉ u2 := List.count_eq_zero.mp (by omega)
          obtain ⟨hBu, hCv⟩ := unique_marker_eq h2 hB hcu2
          exact Or.inr ⟨by simp [hBu], hCv.symm⟩
  | cons a as ih =>
      intro u v h hA hB hC
      cases u with
      | nil =>
          simp only [List.cons_append, List.nil_append, List.cons.injEq] at h
          exact absurd (by simp [h.1]) hA
      | cons b u2 =>
          simp only [List.cons_append, List.cons.injEq] at h
          obtain ⟨rfl, h2⟩ := h
          have hA2 : c ∉ as := fun hc => hA (by simp [hc])
          rcases ih u2 v h2 hA2 hB hC with ⟨hu, hv⟩ | ⟨hu, hv⟩
          · exact Or.inl ⟨by simp [hu], hv⟩
          · exact Or.inr ⟨by simp [hu], hv⟩

lemma not_occursIn_of_marker_mismatch (c : Char) (s t pat l : List Char)
    (hp : pat = s ++ c :: t)
    (h : ∀ u v, l = u ++ c :: v → ¬ t <+: v) : ¬ occursIn pat l := by
  rintro ⟨a, b, hab⟩
  refine h (a ++ s) (t ++ b) ?_ ⟨b, rfl⟩
  rw [hab, hp]
  simp [List.append_assoc]

/-- C7: the no-relevant-documents placeholder occurs in the assembled
prompt when the candidate list is empty; when at least one candidate is
present, the context slot of the prompt is the labeled chunk block in
ranked order and the placeholder does not occur, provided no input
smuggles the placeholder marker into the prompt (no history text,
document text, rendered score or query contains the letter w, which the
placeholder and the system instruction each contain exactly once and the
rest of the template never contains). -/
theorem placeholder_occurrence (fmt : ℝ → String) (query : String)
    (history : List ChatMsg) (scored : List Scored)
    (hq : 'w' ∉ query.data)
    (hh : ∀ m ∈ history, 'w' ∉ m.text.data)
    (hs : ∀ s ∈ scored, 'w' ∉ (fmt s.score).data ∧ 'w' ∉ s.doc.text.data) :
    (scored = [] →
      occursIn placeholderText.data
        (buildPrompt query history (contextText fmt scored)).data)
    ∧ (scored ≠ [] →
      (∃ pre post, (buildPrompt query history (contextText fmt scored)).data
          = pre ++ (joinSep "\n---\n" (chunkLines fmt 1 scored)).data ++ post)
      ∧ ¬ occursIn placeholderText.data
          (buildPrompt query history (contextText fmt scored)).data) := by
  have hctx : 'w' ∉ (contextText fmt scored).data :=
    marker_not_mem_contextText (by decide) (by decide) (by decide) (by decide) (by decide)
      (by decide) hs
  have hfh : 'w' ∉ (formattedHistory history).data :=
    marker_not_mem_formattedHistory (by decide) (by decide) (by decide) (by decide)
      (by decide) hh
  constructor
  · rintro rfl
    rw [buildPrompt_data]
    have hempty : contextText fmt ([] : List Scored) = "" := rfl
    rw [hempty, if_pos rfl]
    exact ⟨"<bos>".data ++ (formattedHistory history).data ++ "<start_of_turn>user\n".data
      ++ (if history.length = 0 then systemInstruction.data ++ "\n\n".data else [])
      ++ "\nFINANCIAL CONTEXT:\n---\n".data,
      "\n---\nUser question: ".data ++ query.data ++ "\n".data
      ++ "<end_of_turn><start_of_turn>model\n".data,
      by simp [List.append_assoc]⟩
  · intro hne
    have hctxne : contextText fmt scored ≠ "" := by
      cases scored with
      | nil => exact absurd rfl hne
      | cons s rest => exact contextText_ne_empty fmt s rest
    constructor
    · rw [buildPrompt_data, if_neg hctxne]
      exact ⟨"<bos>".data ++ (formattedHistory history).data ++ "<start_of_turn>user\n".data
        ++ (if history.length = 0 then systemInstruction.data ++ "\n\n".data else [])
        ++ "\nFINANCIAL CONTEXT:\n---\n".data,
        "\n---\nUser question: ".data ++ query.data ++ "\n".data
        ++ "<end_of_turn><start_of_turn>model\n".data,
        by simp [contextText, List.append_assoc]⟩
    · by_cases h0 : history.length = 0
      · rw [buildPrompt_data, if_pos h0, if_neg hctxne]
        refine not_occursIn_of_marker_mismatch 'w' phPreW.data phPostW.data
          placeholderText.data _ placeholder_split_w ?_
        intro u v huv hpre
        have hL : "<bos>".data ++ (formattedHistory history).data
            ++ "<start_of_turn>user\n".data
            ++ (systemInstruction.data ++ "\n\n".data)
            ++ "\nFINANCIAL CONTEXT:\n---\n".data
            ++ (contextText fmt scored).data
            ++ "\n---\nUser question: ".data ++ query.data ++ "\n".data
            ++ "<end_of_turn><start_of_turn>model\n".data
          = ("<bos>".data ++ (formattedHistory history).data
              ++ "<start_of_turn>user\n".data ++ siW1.data)
            ++ 'w' :: (siW2.data
            ++ 'w' :: (siW3.data ++ "\n\n".data ++ "\nFINANCIAL CONTEXT:\n---\n".data
              ++ (contextText fmt scored).data
              ++ "\n---\nUser question: ".data ++ query.data ++ "\n".data
              ++ "<end_of_turn><start_of_turn>model\n".data)) := by
          rw [systemInstruction_split_w]
          simp [List.append_assoc]
        rw [hL] at huv
        have hnA : 'w' ∉ "<bos>".data ++ (formattedHistory history).data
            ++ "<start_of_turn>user\n".data ++ siW1.data := by
          intro hc
          simp only [List.mem_append] at hc
          rcases hc with ((hc | hc) | hc) | hc
          · exact absurd hc (by decide)
          · exact hfh hc
          · exact absurd hc (by decide)
          · exact absurd hc (by decide)
        have hnC : 'w' ∉ siW3.data ++ "\n\n".data ++ "\nFINANCIAL CONTEXT:\n---\n".data
            ++ (contextText fmt scored).data
            ++ "\n---\nUser question: ".data ++ query.data ++ "\n".data
            ++ "<end_of_turn><start_of_turn>model\n".data := by
          intro hc
          simp only [List.mem_append] at hc
          rcases hc with ((((((hc | hc) | hc) | hc) | hc) | hc) | hc) | hc
          · exact absurd hc (by decide)
          · exact absurd hc (by decide)
          · exact absurd hc (by decide)
          · exact hctx hc
          · exact absurd hc (by decide)
          · exact hq hc
          · exact absurd hc (by decide)
          · exact absurd hc (by decide)
        rcases two_marker_split 'w' _ _ _ u v huv hnA (by decide) hnC with
          ⟨-, hv⟩ | ⟨-, hv⟩
        · obtain ⟨r, hr⟩ := hpre
          have hl2 : (phPostW.data ++ r).head? = some 'l' := rfl
          rw [hr, hv] at hl2
          exact absurd (show (some 'e' : Option Char) = some 'l' from hl2) (by decide)
        · obtain ⟨r, hr⟩ := hpre
          have hl2 : (phPostW.data ++ r).head? = some 'l' := rfl
          rw [hr, hv] at hl2
          exact absurd (show (some 'o' : Option Char) = some 'l' from hl2) (by decide)
      · rw [buildPrompt_data, if_neg h0, if_neg hctxne]
        refine not_occursIn_of_marker (show 'w' ∈ placeholderText.data by decide) ?_
        intro hc
        simp only [List.append_nil, List.mem_append] at hc
        rcases hc with ((((((((hc | hc) | hc) | hc) | hc) | hc) | hc) | hc) | hc)
        · exact absurd hc (by decide)
        · exact hfh hc
        · exact absurd hc (by decide)
        · exact absurd hc (by decide)
        · exact hctx hc
        · exact absurd hc (by decide)
        · exact hq hc
        · exact absurd hc (by decide)
        · exact absurd hc (by decide)

theorem placeholder_occurrence_witness :
    occursIn placeholderText.data
      (buildPrompt "What is my balance" [] (contextText (fun _ => "0.000") [])).data
    ∧ ¬ occursIn placeholderText.data
      (buildPrompt "What is my balance" []
        (contextText (fun _ => "0.000")
          [⟨⟨1, "doc-1", "Account balance summary", [(1 : ℝ)]⟩, (1 : ℝ)⟩])).data :=
  ⟨(placeholder_occurrence (fun _ => "0.000") "What is my balance" [] []
      (by decide) (by simp) (by simp)).1 rfl,
   ((placeholder_occurrence (fun _ => "0.000") "What is my balance" []
      [⟨⟨1, "doc-1", "Account balance summary", [(1 : ℝ)]⟩, (1 : ℝ)⟩]
      (by decide) (by simp)
      (by
        intro s hs
        simp only [List.mem_singleton] at hs
        subst hs
        exact ⟨by decide, by decide⟩)).2
      (by simp)).2⟩
